import Mathlib

/-!
A shallow embedding of the server-side UDP transport core of pvAccessCPP:
the framing codec and datagram dispatch loop of
`remote/blockingUDPTransport.cpp`, the command dispatcher and handlers of
`server/responseHandlers.cpp`, and the beacon cadence and transport
registry of `server/beaconEmitter.cpp` / `transportRegistry.cpp`.

Machine integers are modelled as `Nat`/`Int` with explicit reductions
modulo `2 ^ 8`, `2 ^ 16`, `2 ^ 32` and `2 ^ 64` where the C++ types
truncate.
-/

/-- Magic byte of every pvAccess frame (`CA_MAGIC`). -/
def CA_MAGIC : Nat := 0xCA

/-- Modelled from the spec: the protocol version byte (`CA_VERSION`, from
`caConstants.h`, which is not among the sources).  Its concrete value is
irrelevant to every property proved below. -/
def CA_VERSION : Nat := 5

/-- Size in bytes of the fixed frame header (`CA_MESSAGE_HEADER_SIZE`). -/
def CA_MESSAGE_HEADER_SIZE : Nat := 8

/-- Command code of echo messages (`CMD_ECHO`). -/
def CMD_ECHO : Nat := 2

/-- Modelled from the spec: capacity of the UDP buffers (`MAX_UDP_RECV`,
from `caConstants.h`).  Only `ByteBuffer.clear` mentions it, and no claim
observes its value. -/
def MAX_UDP_RECV : Nat := 65535

/-- Read the byte stored at index `i`.  Reads of a C++ `int8` compare
equal iff the byte values modulo 256 are equal, so bytes are kept as
values below 256. -/
def byteAt (l : List Nat) (i : Nat) : Nat := l.getD i 0 % 256

/-- Store byte `b` at index `i` of the backing array, padding with zero
bytes when the index lies past the end of the modelled store. -/
def writeByteAt : List Nat → Nat → Nat → List Nat
  | [], 0, b => [b % 256]
  | [], i + 1, b => 0 :: writeByteAt [] i b
  | _ :: rest, 0, b => b % 256 :: rest
  | x :: rest, i + 1, b => x :: writeByteAt rest i b

/-- Store a list of bytes at consecutive indices starting at `i`. -/
def writeBytesAt (l : List Nat) (i : Nat) : List Nat → List Nat
  | [] => l
  | b :: rest => writeBytesAt (writeByteAt l i b) (i + 1) rest

/-- Decode the unsigned 32-bit value stored at `i`, big-endian when `e`. -/
def u32At (e : Bool) (l : List Nat) (i : Nat) : Nat :=
  if e then
    byteAt l i * 2 ^ 24 + byteAt l (i + 1) * 2 ^ 16 + byteAt l (i + 2) * 2 ^ 8 + byteAt l (i + 3)
  else
    byteAt l i + byteAt l (i + 1) * 2 ^ 8 + byteAt l (i + 2) * 2 ^ 16 + byteAt l (i + 3) * 2 ^ 24

/-- The four bytes of the low 32 bits of `v`, big-endian when `e`. -/
def u32Bytes (e : Bool) (v : Nat) : List Nat :=
  if e then [v / 2 ^ 24 % 256, v / 2 ^ 16 % 256, v / 2 ^ 8 % 256, v % 256]
  else [v % 256, v / 2 ^ 8 % 256, v / 2 ^ 16 % 256, v / 2 ^ 24 % 256]

/-- The two bytes of the low 16 bits of `v`, big-endian when `e`. -/
def u16Bytes (e : Bool) (v : Nat) : List Nat :=
  if e then [v / 2 ^ 8 % 256, v % 256] else [v % 256, v / 2 ^ 8 % 256]

/-- Reinterpret an unsigned 32-bit value as the signed `int32` with the
same bit pattern. -/
def int32OfU32 (u : Nat) : Int :=
  if u < 2 ^ 31 then (u : Int) else (u : Int) - 2 ^ 32

/-- `processBuffer` stores the `int32` returned by `getInt()` into a
`size_t`; model the 64-bit conversion of the signed value. -/
def sizeTOfInt32 (i : Int) : Nat := (i % 2 ^ 64).toNat

/-- Bit 7 of the flags byte selects a big-endian payload (the `int8` read
is negative exactly when the byte value is at least 128). -/
def isBigEndianFlag (flags : Nat) : Bool := if 128 ≤ flags then true else false

/-- `epics::pvData::ByteBuffer`: backing array, cursor, limit and the
per-message endianness selected by `setEndianess`. -/
structure ByteBuffer where
  data : List Nat
  position : Nat
  limit : Nat
  bigEndian : Bool
deriving DecidableEq

def ByteBuffer.setPosition (bb : ByteBuffer) (p : Nat) : ByteBuffer :=
  { bb with position := p }

def ByteBuffer.flip (bb : ByteBuffer) : ByteBuffer :=
  { bb with limit := bb.position, position := 0 }

def ByteBuffer.clear (bb : ByteBuffer) : ByteBuffer :=
  { bb with position := 0, limit := MAX_UDP_RECV }

def ByteBuffer.putByte (bb : ByteBuffer) (b : Nat) : ByteBuffer :=
  { bb with data := writeByteAt bb.data bb.position b, position := bb.position + 1 }

/-- `putInt(index, value)`: write a 32-bit value at an absolute index
without moving the cursor (used by `endMessage` to back-patch). -/
def ByteBuffer.putU32At (bb : ByteBuffer) (i v : Nat) : ByteBuffer :=
  { bb with data := writeBytesAt bb.data i (u32Bytes bb.bigEndian v) }

/-- `putInt(value)`: write a 32-bit value at the cursor and advance it. -/
def ByteBuffer.putU32 (bb : ByteBuffer) (v : Nat) : ByteBuffer :=
  { bb with data := writeBytesAt bb.data bb.position (u32Bytes bb.bigEndian v),
            position := bb.position + 4 }

/-- `getInt()`: read a signed 32-bit value at the cursor and advance it. -/
def ByteBuffer.getInt (bb : ByteBuffer) : Int × ByteBuffer :=
  (int32OfU32 (u32At bb.bigEndian bb.data bb.position), { bb with position := bb.position + 4 })

/-- A decoded frame header: `magic | version | flags | command |
payloadSize(u32)`.  `payloadSize` carries the `size_t` value the receive
loop actually computes from the signed 32-bit read. -/
structure CAHeader where
  magic : Nat
  version : Nat
  flags : Nat
  command : Nat
  payloadSize : Nat
deriving DecidableEq

/-- The header reads performed at the top of
`BlockingUDPTransport::processBuffer`: four byte reads, the endianness
switch driven by bit 7 of the flags byte, and the 32-bit payload-size
read in the selected endianness.  Advances the cursor by eight. -/
def parseHeader (bb : ByteBuffer) : CAHeader × ByteBuffer :=
  let magic := byteAt bb.data bb.position
  let version := byteAt bb.data (bb.position + 1)
  let flags := byteAt bb.data (bb.position + 2)
  let e := isBigEndianFlag flags
  let command := byteAt bb.data (bb.position + 3)
  let u := u32At e bb.data (bb.position + 4)
  (⟨magic, version, flags, command, sizeTOfInt32 (int32OfU32 u)⟩,
   { bb with position := bb.position + CA_MESSAGE_HEADER_SIZE, bigEndian := e })

/-- The loop body of `BlockingUDPTransport::processBuffer`.  `handler`
abstracts `_responseHandler->handleResponse`: it observes the decoded
header and the payload start and leaves the cursor at an arbitrary
position, which the loop then overwrites with `nextRequestPosition`.
The returned list records one entry `(header, payloadStart)` per handler
invocation.  The C++ computes `nextRequestPosition` in `size_t`, so the
addition wraps modulo `2 ^ 64` (the conversion of the signed 32-bit
length is flagged by the source's own `TODO check this cast`), and the
cursor can therefore move backward.  The successor position depends only
on the current position, so an execution that runs for more than
`limit + 1` iterations has revisited a position and the C++ loop never
terminates; the wrapper `processBuffer` supplies `limit + 1` steps of
fuel, which covers every terminating execution of the loop exactly, and
the fuel-exhaustion branch is reached only on inputs where the C++
spins forever. -/
def processBufferLoop (handler : CAHeader → Nat → Nat) :
    Nat → ByteBuffer → List (CAHeader × Nat) × Bool
  | 0, _ => ([], true)
  | fuel + 1, bb =>
    if CA_MESSAGE_HEADER_SIZE ≤ bb.limit - bb.position then
      let ph := parseHeader bb
      if ph.1.magic = CA_MAGIC then
        let nextRequestPosition := (ph.2.position + ph.1.payloadSize) % 2 ^ 64
        if nextRequestPosition ≤ bb.limit then
          let afterHandler := (ph.2.setPosition (handler ph.1 ph.2.position))
          let rest := processBufferLoop handler fuel (afterHandler.setPosition nextRequestPosition)
          ((ph.1, ph.2.position) :: rest.1, rest.2)
        else ([], false)
      else ([], false)
    else ([], true)

/-- `BlockingUDPTransport::processBuffer`. -/
def processBuffer (handler : CAHeader → Nat → Nat) (bb : ByteBuffer) :
    List (CAHeader × Nat) × Bool :=
  processBufferLoop handler (bb.limit + 1) bb

/-- `osiSockAddr` as the receive path inspects it: address family, the
32-bit IPv4 address `ia.sin_addr.s_addr`, and the port. -/
structure SockAddr where
  family : Nat
  s_addr : Nat
  port : Nat
deriving DecidableEq

/-- The receive-side ignore filter of
`BlockingUDPTransport::processRead`: a linear scan comparing only the
32-bit IPv4 address of each ignore-list entry with the datagram source;
an unset list (`_ignoredAddresses == 0`) ignores nothing. -/
def shouldIgnore (ignoredAddresses : Option (List SockAddr)) (fromAddress : SockAddr) : Bool :=
  match ignoredAddresses with
  | none => false
  | some l => l.any (fun e => e.s_addr == fromAddress.s_addr)

/-- One iteration of `processRead` after a datagram `bytes` arrived from
`fromAddress`: apply the ignore filter and, unless the datagram is
dropped, process the positioned-and-flipped receive buffer. -/
def processReadDatagram (ignoredAddresses : Option (List SockAddr))
    (handler : CAHeader → Nat → Nat) (fromAddress : SockAddr) (bytes : List Nat) :
    Option (List (CAHeader × Nat) × Bool) :=
  if shouldIgnore ignoredAddresses fromAddress then none
  else some (processBuffer handler ⟨bytes, 0, bytes.length, false⟩)

/-- The send-side state of a `BlockingUDPTransport`: the send buffer, the
`_lastMessageStartPosition` cursor, the `_sendTo`/`_sendToEnabled` pair,
the optional broadcast list, and the datagrams handed to `sendto` so far
(payload bytes paired with the destination address). -/
structure UdpSendState where
  sendBuffer : ByteBuffer
  lastMessageStartPosition : Nat
  sendToEnabled : Bool
  sendTo : SockAddr
  sendAddresses : Option (List SockAddr)
  sent : List (List Nat × SockAddr)
deriving DecidableEq

/-- `BlockingUDPTransport::startMessage`: record the message start and
write the placeholder header (magic, version, endianness flag, command,
zero payload length). -/
def startMessage (command : Nat) (st : UdpSendState) : UdpSendState :=
  let st1 := { st with lastMessageStartPosition := st.sendBuffer.position }
  let bb := st1.sendBuffer
  let bb := bb.putByte CA_MAGIC
  let bb := bb.putByte CA_VERSION
  let bb := bb.putByte (if st1.sendBuffer.bigEndian then 0x80 else 0x00)
  let bb := bb.putByte command
  let bb := bb.putU32 0
  { st1 with sendBuffer := bb }

/-- `BlockingUDPTransport::endMessage`: back-patch the payload length,
`position - start - CA_MESSAGE_HEADER_SIZE` truncated to 32 bits, at
offset `start + (sizeof(int16) + 2) = start + 4`. -/
def endMessage (st : UdpSendState) : UdpSendState :=
  let payloadLength : Nat :=
    (((st.sendBuffer.position : Int) - (st.lastMessageStartPosition : Int) -
        (CA_MESSAGE_HEADER_SIZE : Int)) % 2 ^ 32).toNat
  { st with sendBuffer := st.sendBuffer.putU32At (st.lastMessageStartPosition + 4) payloadLength }

/-- A message payload written as a sequence of byte writes between
`startMessage` and `endMessage` (every `ByteBuffer` put advances the
cursor bytewise). -/
def writePayload (p : List Nat) (st : UdpSendState) : UdpSendState :=
  p.foldl (fun s b => { s with sendBuffer := s.sendBuffer.putByte b }) st

/-- Modelled from the spec: `setRecipient` (declared in `blockingUDP.h`,
which is not among the sources) switches the pending send from broadcast
to unicast toward the given address. -/
def setRecipient (a : SockAddr) (st : UdpSendState) : UdpSendState :=
  { st with sendTo := a, sendToEnabled := true }

/-- `BlockingUDPTransport::enqueueSendRequest`: reset the unicast flag,
clear the send buffer, run the sender, finalize with `endMessage`, then
either broadcast to the configured send list or send to the explicit
recipient.  The two `send` overloads flip the buffer and emit its first
`limit` bytes; the broadcast overload bails out before flipping when no
send list is configured. -/
def enqueueSendRequest (senderSend : UdpSendState → UdpSendState) (st : UdpSendState) :
    UdpSendState :=
  let st1 := { st with sendToEnabled := false, sendBuffer := st.sendBuffer.clear }
  let st2 := senderSend st1
  let st3 := endMessage st2
  if st3.sendToEnabled then
    let buf := st3.sendBuffer.flip
    { st3 with sendBuffer := buf, sent := st3.sent ++ [(buf.data.take buf.limit, st3.sendTo)] }
  else
    match st3.sendAddresses with
    | none => st3
    | some addrs =>
      let buf := st3.sendBuffer.flip
      { st3 with sendBuffer := buf,
                 sent := st3.sent ++ addrs.map (fun a => (buf.data.take buf.limit, a)) }

/-- `EchoTransportSender::send`: write an empty `CMD_ECHO` message and
address the datagram to the original source. -/
def echoTransportSenderSend (echoFrom : SockAddr) (st : UdpSendState) : UdpSendState :=
  setRecipient echoFrom (startMessage CMD_ECHO st)

/-- The transport state the server-side handlers touch: the three remote
parameters set by connection validation, and the UDP send state used by
the echo reply. -/
structure ServerTransport where
  remoteTransportReceiveBufferSize : Int
  remoteTransportSocketReceiveBufferSize : Int
  remoteMinorRevision : Nat
  udp : UdpSendState
deriving DecidableEq

/-- Severity of a log line emitted by a handler. -/
inductive LogSeverity
  | minor
  | info
deriving DecidableEq

/-- `ConnectionValidationHandler::handleResponse`: `ensureData(10)`
(modelled from the spec: for the UDP transport this fails when fewer than
`2*4 + 2` bytes remain, the body lives outside the sources), then two
32-bit reads set the peer receive-buffer and socket receive-buffer sizes
and the version byte is recorded as the remote minor revision.  The
16-bit priority field is never read (the `getShort` is commented out). -/
def connectionValidationHandle (version : Nat) (t : ServerTransport) (bb : ByteBuffer) :
    Option (ServerTransport × ByteBuffer × List LogSeverity) :=
  if bb.limit - bb.position < 2 * 4 + 2 then none
  else
    let r := bb.getInt
    let s := r.2.getInt
    some ({ t with remoteTransportReceiveBufferSize := r.1,
                   remoteTransportSocketReceiveBufferSize := s.1,
                   remoteMinorRevision := version }, s.2, [])

/-- The four kinds of handler object installed in the dispatcher table. -/
inductive HandlerKind
  | noop
  | connectionValidation
  | echo
  | badResponse
deriving DecidableEq

/-- `HANDLER_TABLE_LENGTH`. -/
def HANDLER_TABLE_LENGTH : Nat := 28

/-- The 28-slot dispatcher table built by the `ServerResponseHandler`
constructor: beacon no-op, connection validation, echo, and the shared
bad-response handler in slots 3 through 27. -/
def handlerTable : List HandlerKind :=
  [HandlerKind.noop, HandlerKind.connectionValidation, HandlerKind.echo] ++
    List.replicate 25 HandlerKind.badResponse

/-- Run one handler object.  `NoopResponse` does nothing, `BadResponse`
logs one info-severity line, the other two are modelled above. -/
def dispatchHandler (k : HandlerKind) (responseFrom : SockAddr) (version : Nat)
    (payloadSize : Nat) (t : ServerTransport) (bb : ByteBuffer) :
    Option (ServerTransport × ByteBuffer × List LogSeverity) :=
  match k with
  | HandlerKind.noop => some (t, bb, [])
  | HandlerKind.connectionValidation => connectionValidationHandle version t bb
  | HandlerKind.echo =>
    some ({ t with udp := enqueueSendRequest (echoTransportSenderSend responseFrom) t.udp },
      bb, [])
  | HandlerKind.badResponse => some (t, bb, [LogSeverity.info])

/-- Result of one `ServerResponseHandler::handleResponse` call: the
transport and payload buffer afterwards, the log lines emitted, and which
table slot (if any) the call was delegated to. -/
structure DispatchResult where
  transport : ServerTransport
  buffer : ByteBuffer
  logs : List LogSeverity
  delegated : Option (Fin HANDLER_TABLE_LENGTH)
deriving DecidableEq

/-- `ServerResponseHandler::handleResponse`: reject commands outside
`[0, 28)` with a minor-severity log line and no delegation, otherwise
delegate to the table slot selected by the command.  `none` models an
exception escaping the handler. -/
def serverHandleResponse (responseFrom : SockAddr) (version : Nat) (command : Int)
    (payloadSize : Nat) (t : ServerTransport) (bb : ByteBuffer) : Option DispatchResult :=
  if h : command < 0 ∨ (HANDLER_TABLE_LENGTH : Int) ≤ command then
    some ⟨t, bb, [LogSeverity.minor], none⟩
  else
    Option.map
      (fun x => ⟨x.1, x.2.1, x.2.2, some ⟨command.toNat, by omega⟩⟩)
      (dispatchHandler (handlerTable.getD command.toNat HandlerKind.badResponse)
        responseFrom version payloadSize t bb)

/-- `BeaconEmitter`: the sequence id together with the cadence
parameters.  The sequence id is a 16-bit counter that wraps (modelled
from the spec: the field declaration lives in `beaconEmitter.h`, which is
not among the sources, and the wire format carries it as `u16`). -/
structure BeaconEmitter where
  beaconSequenceID : Nat
  fastBeaconPeriod : ℚ
  slowBeaconPeriod : ℚ
  beaconCountLimit : Nat
deriving DecidableEq

/-- The sequence-id increment performed at the end of
`BeaconEmitter::send`, just before `reschedule()`. -/
def BeaconEmitter.sendStep (b : BeaconEmitter) : BeaconEmitter :=
  { b with beaconSequenceID := (b.beaconSequenceID + 1) % 2 ^ 16 }

/-- `BeaconEmitter::reschedule`: choose the slow period once the sequence
id has reached the count limit, and schedule only positive periods. -/
def BeaconEmitter.reschedulePeriod (b : BeaconEmitter) : Option ℚ :=
  let period :=
    if b.beaconCountLimit ≤ b.beaconSequenceID then b.slowBeaconPeriod else b.fastBeaconPeriod
  if 0 < period then some period else none

/-- The emitter state after `k` beacons have been sent. -/
def BeaconEmitter.afterBeacons (b : BeaconEmitter) : Nat → BeaconEmitter
  | 0 => b
  | k + 1 => (b.afterBeacons k).sendStep

/-- The delay chosen by the scheduling decision taken at the end of the
`k`-th beacon send. -/
def BeaconEmitter.periodAfterBeacon (b : BeaconEmitter) (k : Nat) : Option ℚ :=
  (b.afterBeacons k).reschedulePeriod

/-- A freshly constructed emitter: the sequence id starts at zero. -/
def BeaconEmitter.init (fast slow : ℚ) (limit : Nat) : BeaconEmitter :=
  ⟨0, fast, slow, limit⟩

/-- A remote address as the registry keys it: the pointer returned by
`getRemoteAddress()` (its identity) together with the address value it
points at. -/
structure AddrPtr where
  ptrId : Nat
  val : SockAddr
deriving DecidableEq

/-- A transport as the registry sees it: remote-address pointer, priority
and an identity for the stored reference. -/
structure RTransport where
  remoteAddress : AddrPtr
  priority : Int
  tid : Nat
deriving DecidableEq

/-- The inner `map(priority -> transport)` of the registry. -/
abbrev PriorityMap := List (Int × RTransport)

/-- The outer `map(const osiSockAddr* -> priorities)`: keyed by the
pointer, so lookups compare `ptrId` only. -/
abbrev AddrMap := List (AddrPtr × PriorityMap)

def findPriority (p : Int) : PriorityMap → Option RTransport
  | [] => none
  | (q, t) :: rest => if q = p then some t else findPriority p rest

def insertPriority (p : Int) (t : RTransport) : PriorityMap → PriorityMap
  | [] => [(p, t)]
  | (q, u) :: rest => if q = p then (q, t) :: rest else (q, u) :: insertPriority p t rest

def erasePriority (p : Int) : PriorityMap → PriorityMap
  | [] => []
  | (q, u) :: rest => if q = p then rest else (q, u) :: erasePriority p rest

def findAddr (a : AddrPtr) : AddrMap → Option PriorityMap
  | [] => none
  | (k, v) :: rest => if k.ptrId = a.ptrId then some v else findAddr a rest

def insertAddr (a : AddrPtr) (v : PriorityMap) : AddrMap → AddrMap
  | [] => [(a, v)]
  | (k, w) :: rest => if k.ptrId = a.ptrId then (k, v) :: rest else (k, w) :: insertAddr a v rest

def eraseAddr (a : AddrPtr) : AddrMap → AddrMap
  | [] => []
  | (k, w) :: rest => if k.ptrId = a.ptrId then rest else (k, w) :: eraseAddr a rest

/-- `TransportRegistry`: the two-level map plus the cached
`_transportCount`. -/
structure TransportRegistry where
  transports : AddrMap
  transportCount : Nat
deriving DecidableEq

def TransportRegistry.empty : TransportRegistry := ⟨[], 0⟩

/-- `TransportRegistry::put`. -/
def TransportRegistry.put (t : RTransport) (r : TransportRegistry) : TransportRegistry :=
  match findAddr t.remoteAddress r.transports with
  | none =>
    { transports := insertAddr t.remoteAddress (insertPriority t.priority t []) r.transports,
      transportCount := r.transportCount + 1 }
  | some priorities =>
    { transports := insertAddr t.remoteAddress (insertPriority t.priority t priorities)
        r.transports,
      transportCount :=
        if findPriority t.priority priorities = none then r.transportCount + 1
        else r.transportCount }

/-- `TransportRegistry::get(type, address, priority)`; the `type`
parameter is ignored by the implementation and therefore omitted. -/
def TransportRegistry.get (address : AddrPtr) (priority : Int) (r : TransportRegistry) :
    Option RTransport :=
  match findAddr address r.transports with
  | none => none
  | some priorities => findPriority priority priorities

/-- `TransportRegistry::remove`: returns the removed reference (if any)
next to the updated registry, dropping the address entry when its inner
map becomes empty. -/
def TransportRegistry.remove (t : RTransport) (r : TransportRegistry) :
    Option RTransport × TransportRegistry :=
  match findAddr t.remoteAddress r.transports with
  | none => (none, r)
  | some priorities =>
    match findPriority t.priority priorities with
    | none => (none, r)
    | some ret =>
      let priorities' := erasePriority t.priority priorities
      let transports' :=
        if priorities'.length = 0 then eraseAddr t.remoteAddress r.transports
        else insertAddr t.remoteAddress priorities' r.transports
      (some ret, { transports := transports', transportCount := r.transportCount - 1 })

/-- `TransportRegistry::clear`. -/
def TransportRegistry.clear (_r : TransportRegistry) : TransportRegistry := ⟨[], 0⟩

/-- `TransportRegistry::numberOfActiveTransports`. -/
def TransportRegistry.numberOfActiveTransports (r : TransportRegistry) : Nat :=
  r.transportCount

/-- One registry call in a usage history. -/
inductive RegistryOp
  | put (t : RTransport)
  | remove (t : RTransport)
  | clear
deriving DecidableEq

def applyOp (r : TransportRegistry) : RegistryOp → TransportRegistry
  | RegistryOp.put t => TransportRegistry.put t r
  | RegistryOp.remove t => (TransportRegistry.remove t r).2
  | RegistryOp.clear => TransportRegistry.clear r

def applyOps (ops : List RegistryOp) : TransportRegistry :=
  ops.foldl applyOp TransportRegistry.empty

/-- The `(address, priority)` pairs currently stored, address taken as
the pointer key. -/
def pairsOf : AddrMap → List (Nat × Int)
  | [] => []
  | (a, pm) :: rest => pm.map (fun pt => (a.ptrId, pt.1)) ++ pairsOf rest

/-- Total number of inner entries of the two-level map. -/
def addrMapSize : AddrMap → Nat
  | [] => 0
  | (_, pm) :: rest => pm.length + addrMapSize rest

/-- The structural invariant the registry maintains: pointer keys and
per-address priority keys are duplicate-free, no address entry holds an
empty priority map, and the cached count equals the number of inner
entries. -/
def RegistryWF (r : TransportRegistry) : Prop :=
  (r.transports.map (fun kv => kv.1.ptrId)).Nodup ∧
  (∀ kv ∈ r.transports, (kv.2.map Prod.fst).Nodup ∧ kv.2 ≠ []) ∧
  r.transportCount = addrMapSize r.transports

/-! ## Byte-level lemmas -/

theorem getD_writeByteAt (l : List Nat) (i b j : Nat) :
    (writeByteAt l i b).getD j 0 = if j = i then b % 256 else l.getD j 0 := by
  induction l generalizing i j with
  | nil =>
    induction i generalizing j with
    | zero => cases j <;> simp [writeByteAt]
    | succ i ih =>
      cases j with
      | zero => simp [writeByteAt]
      | succ j => simpa [writeByteAt, Nat.succ_inj] using ih j
  | cons x rest ih =>
    cases i with
    | zero => cases j <;> simp [writeByteAt]
    | succ i =>
      cases j with
      | zero => simp [writeByteAt]
      | succ j => simpa [writeByteAt, Nat.succ_inj] using ih i j

theorem getD_writeBytesAt_lt (bs : List Nat) (l : List Nat) (i j : Nat) (h : j < i) :
    (writeBytesAt l i bs).getD j 0 = l.getD j 0 := by
  induction bs generalizing l i with
  | nil => rfl
  | cons b rest ih =>
    rw [writeBytesAt, ih _ (i + 1) (by omega), getD_writeByteAt, if_neg (by omega)]

theorem getD_writeBytesAt (bs : List Nat) (l : List Nat) (i k : Nat) (h : k < bs.length) :
    (writeBytesAt l i bs).getD (i + k) 0 = bs.getD k 0 % 256 := by
  induction bs generalizing l i k with
  | nil => simp at h
  | cons b rest ih =>
    cases k with
    | zero =>
      rw [writeBytesAt, getD_writeBytesAt_lt rest _ _ _ (by omega), Nat.add_zero,
        getD_writeByteAt, if_pos rfl]
      rfl
    | succ k =>
      rw [writeBytesAt, show i + (k + 1) = (i + 1) + k by omega,
        ih _ (i + 1) k (by simpa using h)]
      simp

theorem u32At_writeBytesAt_u32Bytes (e : Bool) (l : List Nat) (i v : Nat) :
    u32At e (writeBytesAt l i (u32Bytes e v)) i = v % 2 ^ 32 := by
  have hlen : (u32Bytes e v).length = 4 := by cases e <;> simp [u32Bytes]
  have h0 := getD_writeBytesAt (u32Bytes e v) l i 0 (by omega)
  have h1 := getD_writeBytesAt (u32Bytes e v) l i 1 (by omega)
  have h2 := getD_writeBytesAt (u32Bytes e v) l i 2 (by omega)
  have h3 := getD_writeBytesAt (u32Bytes e v) l i 3 (by omega)
  rw [Nat.add_zero] at h0
  unfold u32At byteAt
  cases e with
  | false =>
    rw [if_neg (by simp), h0, h1, h2, h3]
    have e0 : (u32Bytes false v).getD 0 0 = v % 256 := rfl
    have e1 : (u32Bytes false v).getD 1 0 = v / 2 ^ 8 % 256 := rfl
    have e2 : (u32Bytes false v).getD 2 0 = v / 2 ^ 16 % 256 := rfl
    have e3 : (u32Bytes false v).getD 3 0 = v / 2 ^ 24 % 256 := rfl
    rw [e0, e1, e2, e3]
    omega
  | true =>
    rw [if_pos rfl, h0, h1, h2, h3]
    have e0 : (u32Bytes true v).getD 0 0 = v / 2 ^ 24 % 256 := rfl
    have e1 : (u32Bytes true v).getD 1 0 = v / 2 ^ 16 % 256 := rfl
    have e2 : (u32Bytes true v).getD 2 0 = v / 2 ^ 8 % 256 := rfl
    have e3 : (u32Bytes true v).getD 3 0 = v % 256 := rfl
    rw [e0, e1, e2, e3]
    omega

theorem sizeT_int32_roundtrip (n : Nat) (h : n < 2 ^ 31) :
    sizeTOfInt32 (int32OfU32 n) = n := by
  unfold sizeTOfInt32 int32OfU32
  rw [if_pos h, Int.emod_eq_of_lt (by positivity)
    (by exact_mod_cast h.trans (by norm_num : (2 : Nat) ^ 31 < 2 ^ 64))]
  simp

theorem u32At_u32Bytes_append (e : Bool) (v : Nat) (m : List Nat) :
    u32At e (u32Bytes e v ++ m) 0 = v % 2 ^ 32 := by
  cases e with
  | false =>
    have hb0 : byteAt (u32Bytes false v ++ m) 0 = v % 256 % 256 := rfl
    have hb1 : byteAt (u32Bytes false v ++ m) (0 + 1) = v / 2 ^ 8 % 256 % 256 := rfl
    have hb2 : byteAt (u32Bytes false v ++ m) (0 + 2) = v / 2 ^ 16 % 256 % 256 := rfl
    have hb3 : byteAt (u32Bytes false v ++ m) (0 + 3) = v / 2 ^ 24 % 256 % 256 := rfl
    unfold u32At
    rw [if_neg (by simp), hb0, hb1, hb2, hb3]
    omega
  | true =>
    have hb0 : byteAt (u32Bytes true v ++ m) 0 = v / 2 ^ 24 % 256 % 256 := rfl
    have hb1 : byteAt (u32Bytes true v ++ m) (0 + 1) = v / 2 ^ 16 % 256 % 256 := rfl
    have hb2 : byteAt (u32Bytes true v ++ m) (0 + 2) = v / 2 ^ 8 % 256 % 256 := rfl
    have hb3 : byteAt (u32Bytes true v ++ m) (0 + 3) = v % 256 % 256 := rfl
    unfold u32At
    rw [if_pos rfl, hb0, hb1, hb2, hb3]
    omega

theorem u32At_u32Bytes_append_second (e : Bool) (v w : Nat) (m : List Nat) :
    u32At e (u32Bytes e v ++ (u32Bytes e w ++ m)) 4 = w % 2 ^ 32 := by
  cases e with
  | false =>
    have hb0 : byteAt (u32Bytes false v ++ (u32Bytes false w ++ m)) 4 = w % 256 % 256 := rfl
    have hb1 : byteAt (u32Bytes false v ++ (u32Bytes false w ++ m)) (4 + 1) =
        w / 2 ^ 8 % 256 % 256 := rfl
    have hb2 : byteAt (u32Bytes false v ++ (u32Bytes false w ++ m)) (4 + 2) =
        w / 2 ^ 16 % 256 % 256 := rfl
    have hb3 : byteAt (u32Bytes false v ++ (u32Bytes false w ++ m)) (4 + 3) =
        w / 2 ^ 24 % 256 % 256 := rfl
    unfold u32At
    rw [if_neg (by simp), hb0, hb1, hb2, hb3]
    omega
  | true =>
    have hb0 : byteAt (u32Bytes true v ++ (u32Bytes true w ++ m)) 4 = w / 2 ^ 24 % 256 % 256 := rfl
    have hb1 : byteAt (u32Bytes true v ++ (u32Bytes true w ++ m)) (4 + 1) =
        w / 2 ^ 16 % 256 % 256 := rfl
    have hb2 : byteAt (u32Bytes true v ++ (u32Bytes true w ++ m)) (4 + 2) =
        w / 2 ^ 8 % 256 % 256 := rfl
    have hb3 : byteAt (u32Bytes true v ++ (u32Bytes true w ++ m)) (4 + 3) = w % 256 % 256 := rfl
    unfold u32At
    rw [if_pos rfl, hb0, hb1, hb2, hb3]
    omega

/-- Claim C5: a connection-validation frame with at least ten payload
bytes carrying `(R, S, P)` sets the transport's remote receive-buffer
size to `R`, its remote socket receive-buffer size to `S` and its remote
minor revision to the header's version byte, advances the payload cursor
by exactly the eight bytes of the two integer reads, and the 16-bit
priority field `P` has no effect: the result does not depend on it. -/
theorem connectionValidation_updates
    (e : Bool) (version R S P : Nat) (rest : List Nat) (t : ServerTransport)
    (hR : R < 2 ^ 31) (hS : S < 2 ^ 31) :
    connectionValidationHandle version t
        ⟨u32Bytes e R ++ (u32Bytes e S ++ (u16Bytes e P ++ rest)), 0, 10 + rest.length, e⟩ =
      some ({ t with remoteTransportReceiveBufferSize := (R : Int),
                     remoteTransportSocketReceiveBufferSize := (S : Int),
                     remoteMinorRevision := version },
        ⟨u32Bytes e R ++ (u32Bytes e S ++ (u16Bytes e P ++ rest)), 8, 10 + rest.length, e⟩,
        []) := by
  have h1 : u32At e (u32Bytes e R ++ (u32Bytes e S ++ (u16Bytes e P ++ rest))) 0 = R := by
    rw [u32At_u32Bytes_append]
    omega
  have h2 : u32At e (u32Bytes e R ++ (u32Bytes e S ++ (u16Bytes e P ++ rest))) 4 = S := by
    rw [u32At_u32Bytes_append_second]
    omega
  unfold connectionValidationHandle ByteBuffer.getInt
  split
  · next h => simp at h
  · next h =>
    simp only [h1, h2, int32OfU32, if_pos hR, if_pos hS]

/-- Witness for claim C5: the connection-validation scenario of the spec,
`R = 0x00010000`, `S = 0x00020000`, `P = 1`, little-endian. -/
theorem connectionValidation_updates_witness :
    (65536 : Nat) < 2 ^ 31 ∧ (131072 : Nat) < 2 ^ 31 ∧
      connectionValidationHandle 13
          ⟨0, 0, 0, ⟨⟨[], 0, 0, false⟩, 0, false, ⟨0, 0, 0⟩, none, []⟩⟩
          ⟨u32Bytes false 65536 ++ (u32Bytes false 131072 ++ (u16Bytes false 1 ++ [])), 0,
            10 + List.length ([] : List Nat), false⟩ =
        some (⟨((65536 : Nat) : Int), ((131072 : Nat) : Int), 13,
            ⟨⟨[], 0, 0, false⟩, 0, false, ⟨0, 0, 0⟩, none, []⟩⟩,
          ⟨u32Bytes false 65536 ++ (u32Bytes false 131072 ++ (u16Bytes false 1 ++ [])), 8,
            10 + List.length ([] : List Nat), false⟩, []) :=
  ⟨by norm_num, by norm_num,
    connectionValidation_updates false 13 65536 131072 1 []
      ⟨0, 0, 0, ⟨⟨[], 0, 0, false⟩, 0, false, ⟨0, 0, 0⟩, none, []⟩⟩
      (by norm_num) (by norm_num)⟩

theorem writePayload_spec (p : List Nat) (st : UdpSendState) :
    (writePayload p st).sendBuffer.position = st.sendBuffer.position + p.length ∧
    (writePayload p st).lastMessageStartPosition = st.lastMessageStartPosition ∧
    (writePayload p st).sendBuffer.bigEndian = st.sendBuffer.bigEndian ∧
    ∀ j, j < st.sendBuffer.position →
      (writePayload p st).sendBuffer.data.getD j 0 = st.sendBuffer.data.getD j 0 := by
  induction p generalizing st with
  | nil => exact ⟨rfl, rfl, rfl, fun j _ => rfl⟩
  | cons b rest ih =>
    have hstep : writePayload (b :: rest) st =
        writePayload rest { st with sendBuffer := st.sendBuffer.putByte b } := rfl
    rw [hstep]
    obtain ⟨hp, hl, he, hd⟩ := ih { st with sendBuffer := st.sendBuffer.putByte b }
    refine ⟨?_, hl, he, ?_⟩
    · rw [hp]
      dsimp only [ByteBuffer.putByte]
      simp only [List.length_cons]
      omega
    · intro j hj
      rw [hd j (by dsimp only [ByteBuffer.putByte]; omega)]
      dsimp only [ByteBuffer.putByte]
      rw [getD_writeByteAt, if_neg (by omega)]

theorem startMessage_spec (c : Nat) (st : UdpSendState) :
    (startMessage c st).sendBuffer.position = st.sendBuffer.position + 8 ∧
    (startMessage c st).lastMessageStartPosition = st.sendBuffer.position ∧
    (startMessage c st).sendBuffer.bigEndian = st.sendBuffer.bigEndian ∧
    (startMessage c st).sendBuffer.data.getD st.sendBuffer.position 0 = CA_MAGIC % 256 ∧
    (startMessage c st).sendBuffer.data.getD (st.sendBuffer.position + 1) 0 = CA_VERSION % 256 ∧
    (startMessage c st).sendBuffer.data.getD (st.sendBuffer.position + 2) 0 =
      (if st.sendBuffer.bigEndian then 0x80 else 0x00) % 256 ∧
    (startMessage c st).sendBuffer.data.getD (st.sendBuffer.position + 3) 0 = c % 256 := by
  dsimp only [startMessage, ByteBuffer.putByte, ByteBuffer.putU32]
  refine ⟨by omega, rfl, rfl, ?_, ?_, ?_, ?_⟩
  · rw [getD_writeBytesAt_lt _ _ _ _ (by omega), getD_writeByteAt, if_neg (by omega),
      getD_writeByteAt, if_neg (by omega), getD_writeByteAt, if_neg (by omega),
      getD_writeByteAt, if_pos rfl]
  · rw [getD_writeBytesAt_lt _ _ _ _ (by omega), getD_writeByteAt, if_neg (by omega),
      getD_writeByteAt, if_neg (by omega), getD_writeByteAt, if_pos (by omega)]
  · rw [getD_writeBytesAt_lt _ _ _ _ (by omega), getD_writeByteAt, if_neg (by omega),
      getD_writeByteAt, if_pos (by omega)]
  · rw [getD_writeBytesAt_lt _ _ _ _ (by omega), getD_writeByteAt, if_pos (by omega)]

/-- Claim C4: encoding a message with `startMessage(command, _)`, writing
the payload bytewise, and finalizing with `endMessage` produces an
8-byte header that the receive path decodes to the same command and to a
`payloadSize` equal to the number of payload bytes written (final
position minus start minus the header size), back-patched as a 32-bit
value at offset `start + 4`. -/
theorem message_encode_decode_roundtrip
    (st : UdpSendState) (c : Nat) (payload : List Nat)
    (hc : c < 256) (hlen : payload.length < 2 ^ 31) :
    (parseHeader ((endMessage (writePayload payload (startMessage c st))).sendBuffer.setPosition
        st.sendBuffer.position)).1 =
      ⟨CA_MAGIC, CA_VERSION, if st.sendBuffer.bigEndian then 0x80 else 0x00, c,
        payload.length⟩ ∧
    (endMessage (writePayload payload (startMessage c st))).sendBuffer.position -
        st.sendBuffer.position - CA_MESSAGE_HEADER_SIZE = payload.length ∧
    u32At st.sendBuffer.bigEndian
        (endMessage (writePayload payload (startMessage c st))).sendBuffer.data
        (st.sendBuffer.position + 4) = payload.length := by
  obtain ⟨hp1, hl1, he1, hb0, hb1, hb2, hb3⟩ := startMessage_spec c st
  obtain ⟨hp2, hl2, he2, hd2⟩ := writePayload_spec payload (startMessage c st)
  set start := st.sendBuffer.position with hstart
  have hpos2 : (writePayload payload (startMessage c st)).sendBuffer.position =
      start + 8 + payload.length := by rw [hp2, hp1]
  have hlast2 : (writePayload payload (startMessage c st)).lastMessageStartPosition = start := by
    rw [hl2, hl1]
  have hbig2 : (writePayload payload (startMessage c st)).sendBuffer.bigEndian =
      st.sendBuffer.bigEndian := by rw [he2, he1]
  have hpos3 : (endMessage (writePayload payload (startMessage c st))).sendBuffer.position =
      start + 8 + payload.length := by
    dsimp only [endMessage, ByteBuffer.putU32At]
    exact hpos2
  have hL : ((((writePayload payload (startMessage c st)).sendBuffer.position : Int) -
      ((writePayload payload (startMessage c st)).lastMessageStartPosition : Int) -
      (CA_MESSAGE_HEADER_SIZE : Int)) % 2 ^ 32).toNat = payload.length := by
    rw [hpos2, hlast2]
    simp only [CA_MESSAGE_HEADER_SIZE]
    omega
  have hdata3 : (endMessage (writePayload payload (startMessage c st))).sendBuffer.data =
      writeBytesAt (writePayload payload (startMessage c st)).sendBuffer.data (start + 4)
        (u32Bytes ((writePayload payload (startMessage c st)).sendBuffer.bigEndian)
          payload.length) := by
    dsimp only [endMessage, ByteBuffer.putU32At]
    rw [hL, hlast2]
  have k0 : (endMessage (writePayload payload (startMessage c st))).sendBuffer.data.getD
      start 0 = CA_MAGIC % 256 := by
    rw [hdata3, getD_writeBytesAt_lt _ _ _ _ (by omega), hd2 start (by rw [hp1]; omega), hb0]
  have k1 : (endMessage (writePayload payload (startMessage c st))).sendBuffer.data.getD
      (start + 1) 0 = CA_VERSION % 256 := by
    rw [hdata3, getD_writeBytesAt_lt _ _ _ _ (by omega), hd2 (start + 1) (by rw [hp1]; omega),
      hb1]
  have k2 : (endMessage (writePayload payload (startMessage c st))).sendBuffer.data.getD
      (start + 2) 0 = (if st.sendBuffer.bigEndian then 0x80 else 0x00) % 256 := by
    rw [hdata3, getD_writeBytesAt_lt _ _ _ _ (by omega), hd2 (start + 2) (by rw [hp1]; omega),
      hb2]
  have k3 : (endMessage (writePayload payload (startMessage c st))).sendBuffer.data.getD
      (start + 3) 0 = c % 256 := by
    rw [hdata3, getD_writeBytesAt_lt _ _ _ _ (by omega), hd2 (start + 3) (by rw [hp1]; omega),
      hb3]
  have ku : u32At st.sendBuffer.bigEndian
      (endMessage (writePayload payload (startMessage c st))).sendBuffer.data (start + 4) =
      payload.length := by
    rw [hdata3, ← hbig2, u32At_writeBytesAt_u32Bytes]
    omega
  refine ⟨?_, ?_, ku⟩
  · dsimp only [parseHeader, ByteBuffer.setPosition]
    have m0 : byteAt
        (endMessage (writePayload payload (startMessage c st))).sendBuffer.data start =
        CA_MAGIC := by unfold byteAt; rw [k0]; decide
    have m1 : byteAt
        (endMessage (writePayload payload (startMessage c st))).sendBuffer.data (start + 1) =
        CA_VERSION := by unfold byteAt; rw [k1]; decide
    have m2 : byteAt
        (endMessage (writePayload payload (startMessage c st))).sendBuffer.data (start + 2) =
        (if st.sendBuffer.bigEndian then 0x80 else 0x00) := by
      unfold byteAt
      rw [k2]
      cases st.sendBuffer.bigEndian <;> rfl
    have m3 : byteAt
        (endMessage (writePayload payload (startMessage c st))).sendBuffer.data (start + 3) =
        c := by unfold byteAt; rw [k3]; omega
    have mbig : isBigEndianFlag (if st.sendBuffer.bigEndian then 0x80 else 0x00) =
        st.sendBuffer.bigEndian := by cases st.sendBuffer.bigEndian <;> rfl
    rw [m0, m1, m2, m3, mbig, ku, sizeT_int32_roundtrip _ hlen]
  · rw [hpos3]
    simp only [CA_MESSAGE_HEADER_SIZE]
    omega

/-- Witness for claim C4: command 7, payload `[1, 2, 250]`, little-endian
encoder starting from a cleared buffer. -/
theorem message_encode_decode_roundtrip_witness :
    (7 : Nat) < 256 ∧ ([1, 2, 250] : List Nat).length < 2 ^ 31 ∧
      ((parseHeader ((endMessage (writePayload [1, 2, 250] (startMessage 7
              ⟨⟨[], 0, 0, false⟩, 0, false, ⟨0, 0, 0⟩, none, []⟩))).sendBuffer.setPosition 0)).1 =
          ⟨CA_MAGIC, CA_VERSION, 0, 7, 3⟩ ∧
        (endMessage (writePayload [1, 2, 250] (startMessage 7
              ⟨⟨[], 0, 0, false⟩, 0, false, ⟨0, 0, 0⟩, none, []⟩))).sendBuffer.position - 0 -
            CA_MESSAGE_HEADER_SIZE = 3 ∧
        u32At false (endMessage (writePayload [1, 2, 250] (startMessage 7
              ⟨⟨[], 0, 0, false⟩, 0, false, ⟨0, 0, 0⟩, none, []⟩))).sendBuffer.data (0 + 4) = 3) :=
  ⟨by norm_num, by norm_num,
    message_encode_decode_roundtrip ⟨⟨[], 0, 0, false⟩, 0, false, ⟨0, 0, 0⟩, none, []⟩ 7
      [1, 2, 250] (by norm_num) (by norm_num)⟩

/-- Claim C9: the receive-side ignore filter compares only the 32-bit
IPv4 address of the datagram source with each configured entry — the
port and address family play no role — an unset ignore list lets every
datagram through to `processBuffer`, and a source whose address matches
any entry is dropped before `processBuffer` runs. -/
theorem ignore_filter_addr_only :
    (∀ (handler : CAHeader → Nat → Nat) (a : SockAddr) (d : List Nat),
        processReadDatagram none handler a d =
          some (processBuffer handler ⟨d, 0, d.length, false⟩)) ∧
    (∀ (ign : Option (List SockAddr)) (a b : SockAddr), a.s_addr = b.s_addr →
        shouldIgnore ign a = shouldIgnore ign b) ∧
    (∀ (l : List SockAddr) (a : SockAddr) (handler : CAHeader → Nat → Nat) (d : List Nat),
        (∃ e ∈ l, e.s_addr = a.s_addr) →
        processReadDatagram (some l) handler a d = none) := by
  refine ⟨fun handler a d => rfl, ?_, ?_⟩
  · intro ign a b hab
    cases ign with
    | none => rfl
    | some l => simp [shouldIgnore, hab]
  · intro l a handler d hex
    obtain ⟨e, hel, hea⟩ := hex
    have hig : shouldIgnore (some l) a = true := by
      unfold shouldIgnore
      rw [List.any_eq_true]
      exact ⟨e, hel, by simp [hea]⟩
    unfold processReadDatagram
    rw [if_pos hig]

/-- Witness for claim C9: a matching entry that differs in family and
port still drops the datagram, while an unset list processes it. -/
theorem ignore_filter_addr_only_witness :
    processReadDatagram none (fun _ p => p) ⟨2, 100, 7⟩ [1, 2, 3] =
      some (processBuffer (fun _ p => p) ⟨[1, 2, 3], 0, 3, false⟩) ∧
    (⟨2, 100, 7⟩ : SockAddr).s_addr = (⟨10, 100, 999⟩ : SockAddr).s_addr ∧
    shouldIgnore (some [⟨99, 100, 12345⟩]) ⟨2, 100, 7⟩ =
      shouldIgnore (some [⟨99, 100, 12345⟩]) ⟨10, 100, 999⟩ ∧
    (∃ e ∈ [(⟨99, 100, 12345⟩ : SockAddr)], e.s_addr = (⟨2, 100, 7⟩ : SockAddr).s_addr) ∧
    processReadDatagram (some [⟨99, 100, 12345⟩]) (fun _ p => p) ⟨2, 100, 7⟩ [1, 2, 3] = none :=
  ⟨ignore_filter_addr_only.1 (fun _ p => p) ⟨2, 100, 7⟩ [1, 2, 3], by decide,
    ignore_filter_addr_only.2.1 (some [⟨99, 100, 12345⟩]) ⟨2, 100, 7⟩ ⟨10, 100, 999⟩ (by decide),
    by decide,
    ignore_filter_addr_only.2.2 [⟨99, 100, 12345⟩] ⟨2, 100, 7⟩ (fun _ p => p) [1, 2, 3]
      ⟨⟨99, 100, 12345⟩, by decide, by decide⟩⟩

/-- Claim C8: `ServerResponseHandler::handleResponse` answers any command
outside `[0, 28)` with one minor-severity log line, delegating to no
table slot, leaving the payload buffer and the transport untouched;
every in-range command is delegated to the table slot it indexes. -/
theorem serverResponseHandler_dispatch (responseFrom : SockAddr) (version : Nat)
    (command : Int) (payloadSize : Nat) (t : ServerTransport) (bb : ByteBuffer) :
    (command < 0 ∨ (HANDLER_TABLE_LENGTH : Int) ≤ command →
      serverHandleResponse responseFrom version command payloadSize t bb =
        some ⟨t, bb, [LogSeverity.minor], none⟩) ∧
    (0 ≤ command → command < (HANDLER_TABLE_LENGTH : Int) →
      ∀ hlt : command.toNat < HANDLER_TABLE_LENGTH,
        serverHandleResponse responseFrom version command payloadSize t bb =
          Option.map (fun x => ⟨x.1, x.2.1, x.2.2, some ⟨command.toNat, hlt⟩⟩)
            (dispatchHandler (handlerTable.getD command.toNat HandlerKind.badResponse)
              responseFrom version payloadSize t bb)) := by
  constructor
  · intro h
    unfold serverHandleResponse
    rw [dif_pos h]
  · intro h0 h1 hlt
    unfold serverHandleResponse
    rw [dif_neg (by omega)]

/-- Witness for claim C8: command 99 is rejected with a minor log and no
state change; command 0 is delegated to slot 0. -/
theorem serverResponseHandler_dispatch_witness :
    (((99 : Int) < 0 ∨ (HANDLER_TABLE_LENGTH : Int) ≤ 99) ∧
      serverHandleResponse ⟨2, 1, 1⟩ 1 99 0
          ⟨0, 0, 0, ⟨⟨[], 0, 0, false⟩, 0, false, ⟨0, 0, 0⟩, none, []⟩⟩ ⟨[], 0, 0, false⟩ =
        some ⟨⟨0, 0, 0, ⟨⟨[], 0, 0, false⟩, 0, false, ⟨0, 0, 0⟩, none, []⟩⟩, ⟨[], 0, 0, false⟩,
          [LogSeverity.minor], none⟩) ∧
    ((0 : Int) ≤ 0 ∧ (0 : Int) < (HANDLER_TABLE_LENGTH : Int) ∧
      (0 : Int).toNat < HANDLER_TABLE_LENGTH ∧
      serverHandleResponse ⟨2, 1, 1⟩ 1 0 0
          ⟨0, 0, 0, ⟨⟨[], 0, 0, false⟩, 0, false, ⟨0, 0, 0⟩, none, []⟩⟩ ⟨[], 0, 0, false⟩ =
        Option.map (fun x => ⟨x.1, x.2.1, x.2.2, some ⟨(0 : Int).toNat, by decide⟩⟩)
          (dispatchHandler (handlerTable.getD (0 : Int).toNat HandlerKind.badResponse)
            ⟨2, 1, 1⟩ 1 0 ⟨0, 0, 0, ⟨⟨[], 0, 0, false⟩, 0, false, ⟨0, 0, 0⟩, none, []⟩⟩
            ⟨[], 0, 0, false⟩)) :=
  ⟨⟨by decide,
    (serverResponseHandler_dispatch ⟨2, 1, 1⟩ 1 99 0
      ⟨0, 0, 0, ⟨⟨[], 0, 0, false⟩, 0, false, ⟨0, 0, 0⟩, none, []⟩⟩ ⟨[], 0, 0, false⟩).1
      (by decide)⟩,
   ⟨by decide, by decide, by decide,
    (serverResponseHandler_dispatch ⟨2, 1, 1⟩ 1 0 0
      ⟨0, 0, 0, ⟨⟨[], 0, 0, false⟩, 0, false, ⟨0, 0, 0⟩, none, []⟩⟩ ⟨[], 0, 0, false⟩).2
      (by decide) (by decide) (by decide)⟩⟩

theorem length_writeByteAt (l : List Nat) (i b : Nat) :
    (writeByteAt l i b).length = max l.length (i + 1) := by
  induction l generalizing i with
  | nil =>
    induction i with
    | zero => simp [writeByteAt]
    | succ i ih =>
      show (0 :: writeByteAt [] i b).length = max ([] : List Nat).length (i + 1 + 1)
      simp only [List.length_cons, ih]
      simp only [List.length_nil]
      omega
  | cons x rest ih =>
    cases i with
    | zero =>
      show (b % 256 :: rest).length = max (x :: rest).length 1
      simp only [List.length_cons]
      omega
    | succ i =>
      show (x :: writeByteAt rest i b).length = max (x :: rest).length (i + 1 + 1)
      simp only [List.length_cons, ih]
      omega

theorem le_length_writeBytesAt (bs l : List Nat) (i : Nat) (h : bs ≠ []) :
    i + bs.length ≤ (writeBytesAt l i bs).length := by
  induction bs generalizing l i with
  | nil => simp at h
  | cons b rest ih =>
    cases rest with
    | nil =>
      show i + 1 ≤ (writeByteAt l i b).length
      rw [length_writeByteAt]
      omega
    | cons c rest2 =>
      have h2 := ih (writeByteAt l i b) (i + 1) (by simp)
      show i + (b :: c :: rest2).length ≤
        (writeBytesAt (writeByteAt l i b) (i + 1) (c :: rest2)).length
      simp only [List.length_cons] at h2 ⊢
      omega

theorem getD_take_lt (l : List Nat) (n j : Nat) (h : j < n) :
    (l.take n).getD j 0 = l.getD j 0 := by
  induction l generalizing n j with
  | nil => simp
  | cons x rest ih =>
    cases n with
    | zero => omega
    | succ n =>
      cases j with
      | zero => simp
      | succ j => simpa using ih n j (by omega)

theorem list_eq_of_getD (l : List Nat) : ∀ m : List Nat, l.length = m.length →
    (∀ j, j < l.length → l.getD j 0 = m.getD j 0) → l = m := by
  induction l with
  | nil =>
    intro m hlen _
    cases m with
    | nil => rfl
    | cons y ys => simp at hlen
  | cons x xs ih =>
    intro m hlen hj
    cases m with
    | nil => simp at hlen
    | cons y ys =>
      have h0 : x = y := hj 0 (by simp)
      have htail : xs = ys :=
        ih ys (by simpa using hlen) (fun j hjlt => hj (j + 1) (by simpa using hjlt))
      rw [h0, htail]

theorem echoDatagram_bytes (e : Bool) (d0 : List Nat) :
    (writeBytesAt (writeBytesAt (writeByteAt (writeByteAt (writeByteAt (writeByteAt d0 0
        CA_MAGIC) 1 CA_VERSION) 2 (if e then 0x80 else 0x00)) 3 CMD_ECHO) 4 (u32Bytes e 0)) 4
        (u32Bytes e 0)).take 8 =
      [CA_MAGIC, CA_VERSION, if e then 0x80 else 0x00, CMD_ECHO, 0, 0, 0, 0] := by
  have hz : u32Bytes e 0 = [0, 0, 0, 0] := by cases e <;> rfl
  rw [hz]
  have hlen3 : 8 ≤ (writeBytesAt (writeBytesAt (writeByteAt (writeByteAt (writeByteAt
      (writeByteAt d0 0 CA_MAGIC) 1 CA_VERSION) 2 (if e then 0x80 else 0x00)) 3 CMD_ECHO) 4
      [0, 0, 0, 0]) 4 [0, 0, 0, 0]).length := by
    have := le_length_writeBytesAt [0, 0, 0, 0] (writeBytesAt (writeByteAt (writeByteAt
      (writeByteAt (writeByteAt d0 0 CA_MAGIC) 1 CA_VERSION) 2 (if e then 0x80 else 0x00)) 3
      CMD_ECHO) 4 [0, 0, 0, 0]) 4 (by simp)
    simpa using this
  have g4 : (writeBytesAt (writeBytesAt (writeByteAt (writeByteAt (writeByteAt (writeByteAt
      d0 0 CA_MAGIC) 1 CA_VERSION) 2 (if e then 0x80 else 0x00)) 3 CMD_ECHO) 4 [0, 0, 0, 0]) 4
      [0, 0, 0, 0]).getD 4 0 = 0 :=
    (getD_writeBytesAt [0, 0, 0, 0] _ 4 0 (by simp)).trans rfl
  have g5 : (writeBytesAt (writeBytesAt (writeByteAt (writeByteAt (writeByteAt (writeByteAt
      d0 0 CA_MAGIC) 1 CA_VERSION) 2 (if e then 0x80 else 0x00)) 3 CMD_ECHO) 4 [0, 0, 0, 0]) 4
      [0, 0, 0, 0]).getD 5 0 = 0 :=
    (getD_writeBytesAt [0, 0, 0, 0] _ 4 1 (by simp)).trans rfl
  have g6 : (writeBytesAt (writeBytesAt (writeByteAt (writeByteAt (writeByteAt (writeByteAt
      d0 0 CA_MAGIC) 1 CA_VERSION) 2 (if e then 0x80 else 0x00)) 3 CMD_ECHO) 4 [0, 0, 0, 0]) 4
      [0, 0, 0, 0]).getD 6 0 = 0 :=
    (getD_writeBytesAt [0, 0, 0, 0] _ 4 2 (by simp)).trans rfl
  have g7 : (writeBytesAt (writeBytesAt (writeByteAt (writeByteAt (writeByteAt (writeByteAt
      d0 0 CA_MAGIC) 1 CA_VERSION) 2 (if e then 0x80 else 0x00)) 3 CMD_ECHO) 4 [0, 0, 0, 0]) 4
      [0, 0, 0, 0]).getD 7 0 = 0 :=
    (getD_writeBytesAt [0, 0, 0, 0] _ 4 3 (by simp)).trans rfl
  apply list_eq_of_getD
  · rw [List.length_take]
    simp only [List.length_cons, List.length_nil]
    omega
  · intro j hj
    rw [List.length_take] at hj
    have hj8 : j < 8 := by omega
    rw [getD_take_lt _ _ _ hj8]
    interval_cases j
    · rw [getD_writeBytesAt_lt _ _ _ _ (by norm_num), getD_writeBytesAt_lt _ _ _ _ (by norm_num),
        getD_writeByteAt, if_neg (by norm_num), getD_writeByteAt, if_neg (by norm_num),
        getD_writeByteAt, if_neg (by norm_num), getD_writeByteAt, if_pos rfl]
      rfl
    · rw [getD_writeBytesAt_lt _ _ _ _ (by norm_num), getD_writeBytesAt_lt _ _ _ _ (by norm_num),
        getD_writeByteAt, if_neg (by norm_num), getD_writeByteAt, if_neg (by norm_num),
        getD_writeByteAt, if_pos rfl]
      rfl
    · rw [getD_writeBytesAt_lt _ _ _ _ (by norm_num), getD_writeBytesAt_lt _ _ _ _ (by norm_num),
        getD_writeByteAt, if_neg (by norm_num), getD_writeByteAt, if_pos rfl]
      cases e <;> rfl
    · rw [getD_writeBytesAt_lt _ _ _ _ (by norm_num), getD_writeBytesAt_lt _ _ _ _ (by norm_num),
        getD_writeByteAt, if_pos rfl]
      rfl
    · exact g4.trans rfl
    · exact g5.trans rfl
    · exact g6.trans rfl
    · exact g7.trans rfl

theorem enqueue_echo_sent (a : SockAddr) (u : UdpSendState) :
    (enqueueSendRequest (echoTransportSenderSend a) u).sent =
      u.sent ++ [([CA_MAGIC, CA_VERSION, if u.sendBuffer.bigEndian then 0x80 else 0x00,
        CMD_ECHO, 0, 0, 0, 0], a)] := by
  have hstep : (enqueueSendRequest (echoTransportSenderSend a) u).sent =
      u.sent ++ [((writeBytesAt (writeBytesAt (writeByteAt (writeByteAt (writeByteAt
        (writeByteAt u.sendBuffer.data 0 CA_MAGIC) 1 CA_VERSION) 2
        (if u.sendBuffer.bigEndian then 0x80 else 0x00)) 3 CMD_ECHO) 4
        (u32Bytes u.sendBuffer.bigEndian 0)) 4 (u32Bytes u.sendBuffer.bigEndian 0)).take 8,
        a)] := rfl
  rw [hstep, echoDatagram_bytes]

/-- Claim C6: a frame with command 2 from source address `A` makes the
server enqueue exactly one send request; the resulting datagram is the
bare 8-byte `CMD_ECHO` header with zero payload length, its recipient is
`A`, and decoding it through the receive path yields command `CMD_ECHO`
with `payloadSize = 0`. -/
theorem echo_reply_unique (responseFrom : SockAddr) (version : Nat) (payloadSize : Nat)
    (t : ServerTransport) (bb : ByteBuffer) :
    ∃ r : DispatchResult,
      serverHandleResponse responseFrom version 2 payloadSize t bb = some r ∧
      r.buffer = bb ∧ r.logs = [] ∧ r.delegated = some ⟨2, by decide⟩ ∧
      r.transport.udp.sent = t.udp.sent ++
        [([CA_MAGIC, CA_VERSION, if t.udp.sendBuffer.bigEndian then 0x80 else 0x00, CMD_ECHO,
          0, 0, 0, 0], responseFrom)] ∧
      (parseHeader ⟨[CA_MAGIC, CA_VERSION,
          if t.udp.sendBuffer.bigEndian then 0x80 else 0x00, CMD_ECHO, 0, 0, 0, 0], 0,
          CA_MESSAGE_HEADER_SIZE, false⟩).1.command = CMD_ECHO ∧
      (parseHeader ⟨[CA_MAGIC, CA_VERSION,
          if t.udp.sendBuffer.bigEndian then 0x80 else 0x00, CMD_ECHO, 0, 0, 0, 0], 0,
          CA_MESSAGE_HEADER_SIZE, false⟩).1.payloadSize = 0 := by
  refine ⟨⟨{ t with udp := enqueueSendRequest (echoTransportSenderSend responseFrom) t.udp },
    bb, [], some ⟨2, by decide⟩⟩, ?_, rfl, rfl, rfl, ?_, ?_, ?_⟩
  · unfold serverHandleResponse
    rw [dif_neg (by simp only [HANDLER_TABLE_LENGTH]; omega)]
    rfl
  · exact enqueue_echo_sent responseFrom t.udp
  · cases t.udp.sendBuffer.bigEndian <;> decide
  · cases t.udp.sendBuffer.bigEndian <;> decide

theorem afterBeacons_init (fast slow : ℚ) (limit k : Nat) :
    (BeaconEmitter.init fast slow limit).afterBeacons k =
      ⟨k % 2 ^ 16, fast, slow, limit⟩ := by
  induction k with
  | zero => rfl
  | succ k ih =>
    show ((BeaconEmitter.init fast slow limit).afterBeacons k).sendStep = _
    rw [ih]
    show (⟨(k % 2 ^ 16 + 1) % 2 ^ 16, fast, slow, limit⟩ : BeaconEmitter) =
      ⟨(k + 1) % 2 ^ 16, fast, slow, limit⟩
    congr 1
    omega

/-- Counterexample to claim C3: with `beaconCountLimit = 10`,
`fastBeaconPeriod = 1` and `slowBeaconPeriod = 180`, the scheduling
decision taken at the end of the 10th beacon — one of "the first
`beaconCountLimit` beacons" — already uses the slow period, because the
sequence id is incremented before `reschedule()` compares it with the
limit. -/
theorem beacon_cadence_counterexample :
    (BeaconEmitter.init 1 180 10).periodAfterBeacon 10 = some 180 ∧
    ¬ (BeaconEmitter.init 1 180 10).periodAfterBeacon 10 =
        some (BeaconEmitter.init 1 180 10).fastBeaconPeriod := by
  constructor
  · decide
  · decide

/-- Claim C3 (amended): each of the first `beaconCountLimit - 1` beacons
schedules the next callback after `fastBeaconPeriod`, and every beacon
from the `beaconCountLimit`-th onward — until the 16-bit sequence id
wraps — schedules it after `slowBeaconPeriod`; equivalently, counting
the initial zero-delay schedule of `start()`, the fast-to-slow switch
happens on the `(beaconCountLimit + 1)`-th scheduling decision. -/
theorem beacon_cadence_amended (fast slow : ℚ) (limit k : Nat)
    (hf : 0 < fast) (hs : 0 < slow) (hk1 : 1 ≤ k) (hk : k < 2 ^ 16) :
    (BeaconEmitter.init fast slow limit).periodAfterBeacon k =
      some (if limit ≤ k then slow else fast) := by
  unfold BeaconEmitter.periodAfterBeacon
  rw [afterBeacons_init]
  unfold BeaconEmitter.reschedulePeriod
  have hkk : k % 2 ^ 16 = k := Nat.mod_eq_of_lt hk
  dsimp only
  rw [hkk]
  by_cases h : limit ≤ k
  · rw [if_pos h, if_pos hs]
  · rw [if_neg h, if_pos hf]

/-- Witness for the amended claim C3 at the switch point: the 10th
beacon of an emitter with limit 10 schedules the slow period. -/
theorem beacon_cadence_amended_witness :
    (0 : ℚ) < 1 ∧ (0 : ℚ) < 180 ∧ (1 : Nat) ≤ 10 ∧ (10 : Nat) < 2 ^ 16 ∧
      (BeaconEmitter.init 1 180 10).periodAfterBeacon 10 = some 180 :=
  ⟨by norm_num, by norm_num, by norm_num, by norm_num, by
    have h := beacon_cadence_amended 1 180 10 10 (by norm_num) (by norm_num) (by norm_num)
      (by norm_num)
    simpa using h⟩

theorem findAddr_eq_none (a : AddrPtr) (m : AddrMap) :
    findAddr a m = none ↔ ∀ kv ∈ m, kv.1.ptrId ≠ a.ptrId := by
  induction m with
  | nil => simp [findAddr]
  | cons kv rest ih =>
    unfold findAddr
    by_cases h : kv.1.ptrId = a.ptrId
    · rw [if_pos h]
      constructor
      · intro habs
        exact absurd habs (by simp)
      · intro hall
        exact absurd h (hall kv (by simp))
    · rw [if_neg h, ih]
      constructor
      · intro hall kv2 hkv2
        rcases List.mem_cons.mp hkv2 with heq | hmem
        · rw [heq]
          exact h
        · exact hall kv2 hmem
      · intro hall kv2 hkv2
        exact hall kv2 (List.mem_cons_of_mem _ hkv2)

theorem findAddr_mem (a : AddrPtr) (m : AddrMap) (pm : PriorityMap)
    (h : findAddr a m = some pm) : ∃ k, (k, pm) ∈ m := by
  induction m with
  | nil => simp [findAddr] at h
  | cons kv rest ih =>
    unfold findAddr at h
    by_cases hk : kv.1.ptrId = a.ptrId
    · rw [if_pos hk] at h
      exact ⟨kv.1, by rw [← Option.some_inj.mp h]; simp⟩
    · rw [if_neg hk] at h
      obtain ⟨k, hkm⟩ := ih h
      exact ⟨k, List.mem_cons_of_mem _ hkm⟩

theorem insertAddr_of_not_found (a : AddrPtr) (v : PriorityMap) (m : AddrMap)
    (h : findAddr a m = none) : insertAddr a v m = m ++ [(a, v)] := by
  induction m with
  | nil => rfl
  | cons kv rest ih =>
    unfold findAddr at h
    unfold insertAddr
    by_cases hk : kv.1.ptrId = a.ptrId
    · rw [if_pos hk] at h
      exact absurd h (by simp)
    · rw [if_neg hk] at h
      rw [if_neg hk, ih h]
      rfl

theorem keys_insertAddr_found (a : AddrPtr) (v : PriorityMap) (m : AddrMap) (pm : PriorityMap)
    (h : findAddr a m = some pm) :
    (insertAddr a v m).map (fun kv => kv.1.ptrId) = m.map (fun kv => kv.1.ptrId) := by
  induction m with
  | nil => simp [findAddr] at h
  | cons kv rest ih =>
    unfold findAddr at h
    unfold insertAddr
    by_cases hk : kv.1.ptrId = a.ptrId
    · rw [if_pos hk]
      rfl
    · rw [if_neg hk] at h
      rw [if_neg hk]
      simp only [List.map_cons]
      rw [ih h]

theorem size_insertAddr_found (a : AddrPtr) (v : PriorityMap) (m : AddrMap) (pm : PriorityMap)
    (h : findAddr a m = some pm) :
    addrMapSize (insertAddr a v m) + pm.length = addrMapSize m + v.length := by
  induction m with
  | nil => simp [findAddr] at h
  | cons kv rest ih =>
    unfold findAddr at h
    unfold insertAddr
    by_cases hk : kv.1.ptrId = a.ptrId
    · rw [if_pos hk] at h
      rw [if_pos hk]
      have hpm : pm = kv.2 := (Option.some_inj.mp h).symm
      show v.length + addrMapSize rest + pm.length = kv.2.length + addrMapSize rest + v.length
      rw [hpm]
      omega
    · rw [if_neg hk] at h
      rw [if_neg hk]
      show kv.2.length + addrMapSize (insertAddr a v rest) + pm.length =
        kv.2.length + addrMapSize rest + v.length
      have := ih h
      omega

theorem mem_insertAddr (a : AddrPtr) (v : PriorityMap) (m : AddrMap)
    (kv : AddrPtr × PriorityMap) (h : kv ∈ insertAddr a v m) : kv.2 = v ∨ kv ∈ m := by
  induction m with
  | nil =>
    left
    rcases List.mem_singleton.mp h with heq
    rw [heq]
  | cons kv2 rest ih =>
    unfold insertAddr at h
    by_cases hk : kv2.1.ptrId = a.ptrId
    · rw [if_pos hk] at h
      rcases List.mem_cons.mp h with heq | hmem
      · left
        rw [heq]
      · right
        exact List.mem_cons_of_mem _ hmem
    · rw [if_neg hk] at h
      rcases List.mem_cons.mp h with heq | hmem
      · right
        rw [heq]
        simp
      · rcases ih hmem with hv | hold
        · left
          exact hv
        · right
          exact List.mem_cons_of_mem _ hold

theorem eraseAddr_sublist (a : AddrPtr) (m : AddrMap) : (eraseAddr a m).Sublist m := by
  induction m with
  | nil => simp [eraseAddr]
  | cons kv rest ih =>
    unfold eraseAddr
    by_cases hk : kv.1.ptrId = a.ptrId
    · rw [if_pos hk]
      exact (List.sublist_cons_self kv rest)
    · rw [if_neg hk]
      exact List.Sublist.cons₂ kv ih

theorem size_eraseAddr_found (a : AddrPtr) (m : AddrMap) (pm : PriorityMap)
    (h : findAddr a m = some pm) :
    addrMapSize (eraseAddr a m) + pm.length = addrMapSize m := by
  induction m with
  | nil => simp [findAddr] at h
  | cons kv rest ih =>
    unfold findAddr at h
    unfold eraseAddr
    by_cases hk : kv.1.ptrId = a.ptrId
    · rw [if_pos hk] at h
      rw [if_pos hk]
      have hpm : pm = kv.2 := (Option.some_inj.mp h).symm
      show addrMapSize rest + pm.length = kv.2.length + addrMapSize rest
      rw [hpm]
      omega
    · rw [if_neg hk] at h
      rw [if_neg hk]
      show kv.2.length + addrMapSize (eraseAddr a rest) + pm.length =
        kv.2.length + addrMapSize rest
      have := ih h
      omega

theorem addrMapSize_append (m m2 : AddrMap) :
    addrMapSize (m ++ m2) = addrMapSize m + addrMapSize m2 := by
  induction m with
  | nil => simp [addrMapSize]
  | cons kv rest ih =>
    show kv.2.length + addrMapSize (rest ++ m2) = kv.2.length + addrMapSize rest + addrMapSize m2
    rw [ih]
    omega

theorem addrMapSize_ge_of_mem (m : AddrMap) (k : AddrPtr) (pm : PriorityMap)
    (h : (k, pm) ∈ m) : pm.length ≤ addrMapSize m := by
  induction m with
  | nil => simp at h
  | cons kv rest ih =>
    rcases List.mem_cons.mp h with heq | hmem
    · show pm.length ≤ kv.2.length + addrMapSize rest
      have : kv.2 = pm := by rw [← heq]
      rw [this]
      omega
    · show pm.length ≤ kv.2.length + addrMapSize rest
      have := ih hmem
      omega

theorem findPriority_eq_none (p : Int) (pm : PriorityMap) :
    findPriority p pm = none ↔ ∀ pt ∈ pm, pt.1 ≠ p := by
  induction pm with
  | nil => simp [findPriority]
  | cons pt rest ih =>
    unfold findPriority
    by_cases h : pt.1 = p
    · rw [if_pos h]
      constructor
      · intro habs
        exact absurd habs (by simp)
      · intro hall
        exact absurd h (hall pt (by simp))
    · rw [if_neg h, ih]
      constructor
      · intro hall pt2 hpt2
        rcases List.mem_cons.mp hpt2 with heq | hmem
        · rw [heq]
          exact h
        · exact hall pt2 hmem
      · intro hall pt2 hpt2
        exact hall pt2 (List.mem_cons_of_mem _ hpt2)

theorem insertPriority_of_not_found (p : Int) (t : RTransport) (pm : PriorityMap)
    (h : findPriority p pm = none) : insertPriority p t pm = pm ++ [(p, t)] := by
  induction pm with
  | nil => rfl
  | cons pt rest ih =>
    unfold findPriority at h
    unfold insertPriority
    by_cases hk : pt.1 = p
    · rw [if_pos hk] at h
      exact absurd h (by simp)
    · rw [if_neg hk] at h
      rw [if_neg hk, ih h]
      rfl

theorem keys_insertPriority_found (p : Int) (t u : RTransport) (pm : PriorityMap)
    (h : findPriority p pm = some u) :
    (insertPriority p t pm).map Prod.fst = pm.map Prod.fst := by
  induction pm with
  | nil => simp [findPriority] at h
  | cons pt rest ih =>
    unfold findPriority at h
    unfold insertPriority
    by_cases hk : pt.1 = p
    · rw [if_pos hk]
      rfl
    · rw [if_neg hk] at h
      rw [if_neg hk]
      simp only [List.map_cons]
      rw [ih h]

theorem length_insertPriority_found (p : Int) (t u : RTransport) (pm : PriorityMap)
    (h : findPriority p pm = some u) : (insertPriority p t pm).length = pm.length := by
  have := keys_insertPriority_found p t u pm h
  have h1 : ((insertPriority p t pm).map Prod.fst).length = (pm.map Prod.fst).length := by
    rw [this]
  simpa using h1

theorem length_erasePriority_found (p : Int) (u : RTransport) (pm : PriorityMap)
    (h : findPriority p pm = some u) : (erasePriority p pm).length + 1 = pm.length := by
  induction pm with
  | nil => simp [findPriority] at h
  | cons pt rest ih =>
    unfold findPriority at h
    unfold erasePriority
    by_cases hk : pt.1 = p
    · rw [if_pos hk]
      rfl
    · rw [if_neg hk] at h
      rw [if_neg hk]
      simp only [List.length_cons]
      rw [← ih h]

theorem erasePriority_sublist (p : Int) (pm : PriorityMap) :
    (erasePriority p pm).Sublist pm := by
  induction pm with
  | nil => simp [erasePriority]
  | cons pt rest ih =>
    unfold erasePriority
    by_cases hk : pt.1 = p
    · rw [if_pos hk]
      exact (List.sublist_cons_self pt rest)
    · rw [if_neg hk]
      exact List.Sublist.cons₂ pt ih

theorem insertPriority_ne_nil (p : Int) (t : RTransport) (pm : PriorityMap) :
    insertPriority p t pm ≠ [] := by
  cases pm with
  | nil => simp [insertPriority]
  | cons pt rest =>
    unfold insertPriority
    by_cases hk : pt.1 = p
    · rw [if_pos hk]
      simp
    · rw [if_neg hk]
      simp

theorem registryWF_empty : RegistryWF TransportRegistry.empty := by
  refine ⟨by simp [TransportRegistry.empty], ?_, rfl⟩
  intro kv hkv
  simp [TransportRegistry.empty] at hkv
theorem registryWF_put (t : RTransport) (r : TransportRegistry) (h : RegistryWF r) :
    RegistryWF (TransportRegistry.put t r) := by
  obtain ⟨hkeys, hinner, hcount⟩ := h
  unfold TransportRegistry.put
  split
  · rename_i hfa
    rw [insertAddr_of_not_found _ _ _ hfa]
    refine ⟨?_, ?_, ?_⟩
    · rw [List.map_append, List.nodup_append]
      refine ⟨hkeys, by simp, ?_⟩
      intro x hx hx2
      simp only [List.map_cons, List.map_nil, List.mem_cons, List.not_mem_nil,
        or_false] at hx2
      rw [List.mem_map] at hx
      obtain ⟨kv, hkvm, hkvx⟩ := hx
      exact (findAddr_eq_none t.remoteAddress r.transports).mp hfa kv hkvm
        (by rw [hkvx, hx2])
    · intro kv hkv
      rcases List.mem_append.mp hkv with hold | hnew
      · exact hinner kv hold
      · have hkveq : kv = (t.remoteAddress, insertPriority t.priority t []) :=
          List.mem_singleton.mp hnew
        rw [hkveq]
        exact ⟨by simp [insertPriority], by simp [insertPriority]⟩
    · show r.transportCount + 1 =
        addrMapSize (r.transports ++ [(t.remoteAddress, insertPriority t.priority t [])])
      rw [addrMapSize_append, hcount]
      simp [addrMapSize, insertPriority]
  · rename_i priorities hfa
    obtain ⟨k, hkmem⟩ := findAddr_mem _ _ _ hfa
    obtain ⟨hpmkeys, hpmne⟩ := hinner (k, priorities) hkmem
    refine ⟨?_, ?_, ?_⟩
    · rw [keys_insertAddr_found _ _ _ _ hfa]
      exact hkeys
    · intro kv hkv
      rcases mem_insertAddr _ _ _ _ hkv with hv | hold
      · constructor
        · rw [hv]
          cases hfp : findPriority t.priority priorities with
          | none =>
            rw [insertPriority_of_not_found _ _ _ hfp, List.map_append, List.nodup_append]
            refine ⟨hpmkeys, by simp, ?_⟩
            intro x hx hx2
            simp only [List.map_cons, List.map_nil, List.mem_cons, List.not_mem_nil,
              or_false] at hx2
            rw [List.mem_map] at hx
            obtain ⟨pt, hptm, hptx⟩ := hx
            exact (findPriority_eq_none t.priority priorities).mp hfp pt hptm
              (by rw [hptx, hx2])
          | some u =>
            rw [keys_insertPriority_found _ _ _ _ hfp]
            exact hpmkeys
        · rw [hv]
          exact insertPriority_ne_nil _ _ _
      · exact hinner kv hold
    · have hsize := size_insertAddr_found t.remoteAddress
        (insertPriority t.priority t priorities) r.transports priorities hfa
      cases hfp : findPriority t.priority priorities with
      | none =>
        have hlen : (insertPriority t.priority t priorities).length =
            priorities.length + 1 := by
          rw [insertPriority_of_not_found _ _ _ hfp]
          simp
        dsimp only
        rw [if_pos rfl]
        omega
      | some u =>
        have hlen := length_insertPriority_found _ t u _ hfp
        dsimp only
        rw [if_neg (by simp)]
        omega

theorem registryWF_remove (t : RTransport) (r : TransportRegistry) (h : RegistryWF r) :
    RegistryWF (TransportRegistry.remove t r).2 := by
  obtain ⟨hkeys, hinner, hcount⟩ := h
  unfold TransportRegistry.remove
  split
  · exact ⟨hkeys, hinner, hcount⟩
  · rename_i priorities hfa
    split
    · exact ⟨hkeys, hinner, hcount⟩
    · rename_i u hfp
      obtain ⟨k, hkmem⟩ := findAddr_mem _ _ _ hfa
      obtain ⟨hpmkeys, hpmne⟩ := hinner (k, priorities) hkmem
      have hlen := length_erasePriority_found _ u _ hfp
      have hge := addrMapSize_ge_of_mem _ _ _ hkmem
      by_cases hz : (erasePriority t.priority priorities).length = 0
      · dsimp only
        rw [if_pos hz]
        refine ⟨?_, ?_, ?_⟩
        · exact hkeys.sublist (List.Sublist.map _ (eraseAddr_sublist _ _))
        · intro kv hkv
          exact hinner kv ((eraseAddr_sublist _ _).subset hkv)
        · have hse := size_eraseAddr_found _ _ _ hfa
          dsimp only
          omega
      · dsimp only
        rw [if_neg hz]
        refine ⟨?_, ?_, ?_⟩
        · rw [keys_insertAddr_found _ _ _ _ hfa]
          exact hkeys
        · intro kv hkv
          rcases mem_insertAddr _ _ _ _ hkv with hv | hold
          · constructor
            · rw [hv]
              exact hpmkeys.sublist (List.Sublist.map _ (erasePriority_sublist _ _))
            · rw [hv]
              intro hnil
              exact hz (by rw [hnil]; rfl)
          · exact hinner kv hold
        · have hsi := size_insertAddr_found t.remoteAddress
            (erasePriority t.priority priorities) r.transports priorities hfa
          dsimp only
          omega

theorem registryWF_applyOp (r : TransportRegistry) (op : RegistryOp) (h : RegistryWF r) :
    RegistryWF (applyOp r op) := by
  cases op with
  | put t => exact registryWF_put t r h
  | remove t => exact registryWF_remove t r h
  | clear =>
    refine ⟨by simp [applyOp, TransportRegistry.clear], ?_, rfl⟩
    intro kv hkv
    simp [applyOp, TransportRegistry.clear] at hkv

theorem registryWF_applyOps (ops : List RegistryOp) : RegistryWF (applyOps ops) := by
  unfold applyOps
  have hgen : ∀ r, RegistryWF r → RegistryWF (ops.foldl applyOp r) := by
    induction ops with
    | nil => intro r hr; exact hr
    | cons op rest ih =>
      intro r hr
      exact ih (applyOp r op) (registryWF_applyOp r op hr)
  exact hgen TransportRegistry.empty registryWF_empty

theorem pairsOf_length (m : AddrMap) : (pairsOf m).length = addrMapSize m := by
  induction m with
  | nil => rfl
  | cons kv rest ih =>
    show (kv.2.map (fun pt => (kv.1.ptrId, pt.1)) ++ pairsOf rest).length =
      kv.2.length + addrMapSize rest
    rw [List.length_append, List.length_map, ih]

theorem mem_pairsOf (m : AddrMap) (x : Nat × Int) (h : x ∈ pairsOf m) :
    x.1 ∈ m.map (fun kv => kv.1.ptrId) := by
  induction m with
  | nil => simp [pairsOf] at h
  | cons kv rest ih =>
    unfold pairsOf at h
    rcases List.mem_append.mp h with hhd | htl
    · rw [List.mem_map] at hhd
      obtain ⟨pt, _, hpt⟩ := hhd
      simp only [List.map_cons, List.mem_cons]
      left
      rw [← hpt]
    · simp only [List.map_cons, List.mem_cons]
      right
      exact ih htl

theorem pairsOf_nodup (m : AddrMap) (hkeys : (m.map (fun kv => kv.1.ptrId)).Nodup)
    (hinner : ∀ kv ∈ m, (kv.2.map Prod.fst).Nodup) : (pairsOf m).Nodup := by
  induction m with
  | nil => simp [pairsOf]
  | cons kv rest ih =>
    unfold pairsOf
    rw [List.nodup_append]
    refine ⟨?_, ?_, ?_⟩
    · have hk := hinner kv (by simp)
      have : kv.2.map (fun pt => (kv.1.ptrId, pt.1)) =
          (kv.2.map Prod.fst).map (fun x => (kv.1.ptrId, x)) := by
        rw [List.map_map]
        rfl
      rw [this]
      exact hk.map (fun x y hxy => by simpa using hxy)
    · exact ih (by simpa using hkeys.of_cons) (fun kv2 h2 => hinner kv2 (by simp [h2]))
    · intro x hx hx2
      have h1 : x.1 = kv.1.ptrId := by
        rw [List.mem_map] at hx
        obtain ⟨pt, _, hpt⟩ := hx
        rw [← hpt]
      have h2 := mem_pairsOf rest x hx2
      rw [h1] at h2
      simp only [List.map_cons, List.nodup_cons] at hkeys
      exact hkeys.1 h2

/-- Claim C2: starting from a fresh registry, after any sequence of
`put`, `remove` and `clear` calls, `numberOfActiveTransports()` equals
the number of distinct `(address, priority)` pairs stored (the stored
pairs are indeed pairwise distinct), and no address entry of the
two-level map carries an empty priority map. -/
theorem transportRegistry_count_invariant (ops : List RegistryOp) :
    (applyOps ops).numberOfActiveTransports = (pairsOf (applyOps ops).transports).length ∧
    (pairsOf (applyOps ops).transports).Nodup ∧
    ∀ kv ∈ (applyOps ops).transports, kv.2 ≠ [] := by
  obtain ⟨hkeys, hinner, hcount⟩ := registryWF_applyOps ops
  refine ⟨?_, ?_, ?_⟩
  · rw [pairsOf_length]
    exact hcount
  · exact pairsOf_nodup _ hkeys (fun kv hkv => (hinner kv hkv).1)
  · exact fun kv hkv => (hinner kv hkv).2

/-- Witness for claim C2: registry-contention scenario of the spec —
`put t1` at priority 0, `put t2` at priority 1 on the same address
pointer, then `remove t1` — leaves one stored pair, count 1, and no
empty address entry. -/
theorem transportRegistry_count_invariant_witness :
    (applyOps [RegistryOp.put ⟨⟨1, ⟨2, 100, 5000⟩⟩, 0, 1⟩,
        RegistryOp.put ⟨⟨1, ⟨2, 100, 5000⟩⟩, 1, 2⟩,
        RegistryOp.remove ⟨⟨1, ⟨2, 100, 5000⟩⟩, 0, 1⟩]).numberOfActiveTransports =
      (pairsOf (applyOps [RegistryOp.put ⟨⟨1, ⟨2, 100, 5000⟩⟩, 0, 1⟩,
        RegistryOp.put ⟨⟨1, ⟨2, 100, 5000⟩⟩, 1, 2⟩,
        RegistryOp.remove ⟨⟨1, ⟨2, 100, 5000⟩⟩, 0, 1⟩]).transports).length ∧
    (⟨⟨1, ⟨2, 100, 5000⟩⟩, [((1 : Int), ⟨⟨1, ⟨2, 100, 5000⟩⟩, 1, 2⟩)]⟩ : AddrPtr × PriorityMap) ∈
      (applyOps [RegistryOp.put ⟨⟨1, ⟨2, 100, 5000⟩⟩, 0, 1⟩,
        RegistryOp.put ⟨⟨1, ⟨2, 100, 5000⟩⟩, 1, 2⟩,
        RegistryOp.remove ⟨⟨1, ⟨2, 100, 5000⟩⟩, 0, 1⟩]).transports ∧
    (⟨⟨1, ⟨2, 100, 5000⟩⟩, [((1 : Int), ⟨⟨1, ⟨2, 100, 5000⟩⟩, 1, 2⟩)]⟩ : AddrPtr × PriorityMap).2
      ≠ [] :=
  ⟨(transportRegistry_count_invariant [RegistryOp.put ⟨⟨1, ⟨2, 100, 5000⟩⟩, 0, 1⟩,
      RegistryOp.put ⟨⟨1, ⟨2, 100, 5000⟩⟩, 1, 2⟩,
      RegistryOp.remove ⟨⟨1, ⟨2, 100, 5000⟩⟩, 0, 1⟩]).1,
    by decide,
    (transportRegistry_count_invariant [RegistryOp.put ⟨⟨1, ⟨2, 100, 5000⟩⟩, 0, 1⟩,
      RegistryOp.put ⟨⟨1, ⟨2, 100, 5000⟩⟩, 1, 2⟩,
      RegistryOp.remove ⟨⟨1, ⟨2, 100, 5000⟩⟩, 0, 1⟩]).2.2
      ⟨⟨1, ⟨2, 100, 5000⟩⟩, [((1 : Int), ⟨⟨1, ⟨2, 100, 5000⟩⟩, 1, 2⟩)]⟩ (by decide)⟩

/-- Claim C10: the registry's outer map is keyed by the remote-address
pointer, not by the address value: two transports whose address pointers
are distinct objects holding the same address value are stored under two
separate keys (count 2, each retrievable under its own pointer), and
`get` or `remove` with a third, value-equal but distinct pointer finds
nothing and changes nothing. -/
theorem transportRegistry_pointer_keyed (t1 t2 : RTransport) (q : AddrPtr) (p : Int)
    (hid12 : t1.remoteAddress.ptrId ≠ t2.remoteAddress.ptrId)
    (hval12 : t1.remoteAddress.val = t2.remoteAddress.val)
    (hq1 : q.ptrId ≠ t1.remoteAddress.ptrId) (hq2 : q.ptrId ≠ t2.remoteAddress.ptrId)
    (hqval : q.val = t1.remoteAddress.val) :
    (TransportRegistry.put t2 (TransportRegistry.put t1 TransportRegistry.empty)).transportCount
        = 2 ∧
    TransportRegistry.get t1.remoteAddress t1.priority
        (TransportRegistry.put t2 (TransportRegistry.put t1 TransportRegistry.empty)) =
      some t1 ∧
    TransportRegistry.get t2.remoteAddress t2.priority
        (TransportRegistry.put t2 (TransportRegistry.put t1 TransportRegistry.empty)) =
      some t2 ∧
    TransportRegistry.get q p
        (TransportRegistry.put t2 (TransportRegistry.put t1 TransportRegistry.empty)) =
      none ∧
    TransportRegistry.remove { t1 with remoteAddress := q }
        (TransportRegistry.put t2 (TransportRegistry.put t1 TransportRegistry.empty)) =
      (none, TransportRegistry.put t2 (TransportRegistry.put t1 TransportRegistry.empty)) := by
  have h1 : TransportRegistry.put t1 TransportRegistry.empty =
      ⟨[(t1.remoteAddress, [(t1.priority, t1)])], 1⟩ := rfl
  have hf2 : findAddr t2.remoteAddress [(t1.remoteAddress, [(t1.priority, t1)])] = none := by
    unfold findAddr
    rw [if_neg hid12]
    rfl
  have h2 : TransportRegistry.put t2 (TransportRegistry.put t1 TransportRegistry.empty) =
      ⟨[(t1.remoteAddress, [(t1.priority, t1)]), (t2.remoteAddress, [(t2.priority, t2)])],
        2⟩ := by
    rw [h1]
    simp only [TransportRegistry.put, hf2]
    simp only [insertAddr, insertPriority]
    rw [if_neg hid12]
  refine ⟨?_, ?_, ?_, ?_, ?_⟩
  · rw [h2]
  · rw [h2]
    simp [TransportRegistry.get, findAddr, findPriority]
  · rw [h2]
    simp [TransportRegistry.get, findAddr, findPriority, hid12]
  · rw [h2]
    simp [TransportRegistry.get, findAddr, Ne.symm hq1, Ne.symm hq2]
  · rw [h2]
    simp [TransportRegistry.remove, findAddr, Ne.symm hq1, Ne.symm hq2]

/-- Witness for claim C10: two pointer objects (ids 1 and 7) carrying
the identical address value are kept as two separate registry entries,
and a third value-equal pointer (id 9) finds nothing. -/
theorem transportRegistry_pointer_keyed_witness :
    (⟨⟨1, ⟨2, 100, 5000⟩⟩, 0, 1⟩ : RTransport).remoteAddress.ptrId ≠
      (⟨⟨7, ⟨2, 100, 5000⟩⟩, 0, 2⟩ : RTransport).remoteAddress.ptrId ∧
    (⟨⟨1, ⟨2, 100, 5000⟩⟩, 0, 1⟩ : RTransport).remoteAddress.val =
      (⟨⟨7, ⟨2, 100, 5000⟩⟩, 0, 2⟩ : RTransport).remoteAddress.val ∧
    (⟨9, ⟨2, 100, 5000⟩⟩ : AddrPtr).ptrId ≠
      (⟨⟨1, ⟨2, 100, 5000⟩⟩, 0, 1⟩ : RTransport).remoteAddress.ptrId ∧
    (⟨9, ⟨2, 100, 5000⟩⟩ : AddrPtr).ptrId ≠
      (⟨⟨7, ⟨2, 100, 5000⟩⟩, 0, 2⟩ : RTransport).remoteAddress.ptrId ∧
    (⟨9, ⟨2, 100, 5000⟩⟩ : AddrPtr).val =
      (⟨⟨1, ⟨2, 100, 5000⟩⟩, 0, 1⟩ : RTransport).remoteAddress.val ∧
    (TransportRegistry.put ⟨⟨7, ⟨2, 100, 5000⟩⟩, 0, 2⟩
        (TransportRegistry.put ⟨⟨1, ⟨2, 100, 5000⟩⟩, 0, 1⟩
          TransportRegistry.empty)).transportCount = 2 ∧
    TransportRegistry.get ⟨9, ⟨2, 100, 5000⟩⟩ 0
        (TransportRegistry.put ⟨⟨7, ⟨2, 100, 5000⟩⟩, 0, 2⟩
          (TransportRegistry.put ⟨⟨1, ⟨2, 100, 5000⟩⟩, 0, 1⟩
            TransportRegistry.empty)) = none :=
  ⟨by decide, by decide, by decide, by decide, by decide,
    (transportRegistry_pointer_keyed ⟨⟨1, ⟨2, 100, 5000⟩⟩, 0, 1⟩ ⟨⟨7, ⟨2, 100, 5000⟩⟩, 0, 2⟩
      ⟨9, ⟨2, 100, 5000⟩⟩ 0 (by decide) (by decide) (by decide) (by decide) (by decide)).1,
    (transportRegistry_pointer_keyed ⟨⟨1, ⟨2, 100, 5000⟩⟩, 0, 1⟩ ⟨⟨7, ⟨2, 100, 5000⟩⟩, 0, 2⟩
      ⟨9, ⟨2, 100, 5000⟩⟩ 0 (by decide) (by decide) (by decide) (by decide)
      (by decide)).2.2.2.1⟩

/-- Claim C1 (code bug, demonstrated): on the datagram
`[0xCA, 0x01, 0x00, 0x02, 0xFF, 0xFF, 0xFF, 0xFF]` the payload-length
field decodes to the `int32` value −1, whose `size_t` image is
`2 ^ 64 - 1`; the bounds computation wraps to `7 ≤ limit`, so
`processBuffer` invokes the handler for a frame whose position after the
header plus `payloadSize` far exceeds the 8-byte buffer limit, and the
call even reports success — contradicting the claim that a handler runs
only when `headerEnd + payloadSize` stays within the limit. -/
theorem processBuffer_wrap_dispatch_bug :
    processBuffer (fun _ p => p)
        ⟨[0xCA, 0x01, 0x00, 0x02, 0xFF, 0xFF, 0xFF, 0xFF], 0, 8, false⟩ =
      ([(⟨0xCA, 1, 0, 2, 2 ^ 64 - 1⟩, 8)], true) ∧
    8 + (⟨0xCA, 1, 0, 2, 2 ^ 64 - 1⟩ : CAHeader).payloadSize >
      (⟨[0xCA, 0x01, 0x00, 0x02, 0xFF, 0xFF, 0xFF, 0xFF], 0, 8, false⟩ : ByteBuffer).limit := by
  constructor
  · decide
  · decide

/-- Claim C7 (code bug, demonstrated): a datagram holding the poisoned
frame above followed by a valid empty echo frame at offset 8.  After the
first frame's handler returns, the cursor is set to the `size_t`-wrapped
position 7 — inside the first header, not just past header plus
payload — so the following frame is parsed from the wrong offset (the
garbage byte `0xFF`) and the datagram aborts; the second conjunct shows
that the same bytes parsed from the correct start position 8 form a
valid frame that the full run never dispatched. -/
theorem processBuffer_wrap_desync_bug :
    processBuffer (fun _ p => p)
        ⟨[0xCA, 1, 0, 2, 0xFF, 0xFF, 0xFF, 0xFF, 0xCA, 1, 0, 2, 0, 0, 0, 0], 0, 16, false⟩ =
      ([(⟨0xCA, 1, 0, 2, 2 ^ 64 - 1⟩, 8)], false) ∧
    processBuffer (fun _ p => p)
        ⟨[0xCA, 1, 0, 2, 0xFF, 0xFF, 0xFF, 0xFF, 0xCA, 1, 0, 2, 0, 0, 0, 0], 8, 16, false⟩ =
      ([(⟨0xCA, 1, 0, 2, 0⟩, 16)], true) := by
  constructor
  · decide
  · decide
